import Mathlib

/-!
Verification of the `cobb` concurrency stress-test harness (`src/lib.rs`)
against its natural-language specification.

The Rust source is shallowly embedded: machine integers (`u64`/`usize` on a
64-bit target) become `Nat` with explicit `% 2^64` where wrap-around matters,
slices become `List`, and fallible operations (Rust panics: index out of
bounds, arithmetic underflow, `% 0`) become `Option`, `none` marking a panic.
The sequential parts of the driver (`run_group`) and worker
(`run_test_thread`) are embedded as state-passing functions; hook and test
invocations are recorded as counts / logs, since the claims under scrutiny
are about invocation counts and event accounting.
-/

namespace Cobb

open List

/-- Modulus of 64-bit machine arithmetic. -/
def u64Mod : Nat := 2 ^ 64

/-- Embeds `struct Rng(u64)`: the xorshift-with-multiplier PRNG state. -/
structure Rng where
  state : Nat
deriving DecidableEq, Repr

/-- Embeds `Rng::gen`: one xorshift64* step.  Returns the advanced generator
together with the produced 64-bit value (`self.0.wrapping_mul(0x2545F4914F6CDD1D)`,
computed from the *new* state). -/
def Rng.gen (r : Rng) : Rng × Nat :=
  let s0 := r.state % u64Mod
  let x1 := s0 ^^^ (s0 >>> 12)
  let x2 := (x1 ^^^ (x1 <<< 25)) % u64Mod
  let s1 := x2 ^^^ (x2 >>> 27)
  (⟨s1⟩, (s1 * 0x2545F4914F6CDD1D) % u64Mod)

/-- Embeds `Rng::upto`: `self.gen() as usize % top`.  Rust panics with a
division by zero when `top = 0`; the panic is `none`. -/
def Rng.upto (r : Rng) (top : Nat) : Option (Rng × Nat) :=
  if top = 0 then none
  else
    let g := r.gen
    some (g.1, g.2 % top)

/-- Embeds `Rng::between(lo..hi)`: `self.upto(r.end - r.start) + r.start`.
When `hi ≤ lo` the Rust code panics (underflow in debug, `% 0` otherwise);
`Nat` truncated subtraction routes both cases to `none` via `upto 0`. -/
def Rng.between (r : Rng) (lo hi : Nat) : Option (Rng × Nat) :=
  match r.upto (hi - lo) with
  | none => none
  | some (r', v) => some (r', v + lo)

/-- Embeds `<[T]>::swap(i, j)` as used by `Rng::shuffle`.  Out-of-bounds
indices never occur on the executed paths (the shuffle loop keeps
`i ≤ j < v.length`); the catch-all branch returns the list unchanged. -/
def listSwap (v : List α) (i j : Nat) : List α :=
  match v[i]?, v[j]? with
  | some a, some b => (v.set i b).set j a
  | _, _ => v

/-- Loop body of `Rng::shuffle`: `for i in 0..(v.len()-1) { v.swap(i, between(i..v.len())) }`,
with `fuel` the number of remaining loop steps. -/
def shuffleLoop (r : Rng) (v : List α) (i : Nat) : Nat → Option (Rng × List α)
  | 0 => some (r, v)
  | fuel + 1 =>
    match r.between i v.length with
    | none => none
    | some (r', j) => shuffleLoop r' (listSwap v i j) (i + 1) fuel

/-- Embeds `Rng::shuffle`.  On an empty slice `v.len() - 1` underflows
(`usize` subtraction), a Rust panic, embedded as `none`; otherwise the
Fisher–Yates loop runs over `0..len-1`. -/
def Rng.shuffle (r : Rng) (v : List α) : Option (Rng × List α) :=
  if v.length = 0 then none
  else shuffleLoop r v 0 (v.length - 1)

/-! Section: Permutation facts about `listSwap` and `shuffle` -/

theorem set_self_eq (l : List α) (i : Nat) (hi : i < l.length) :
    l.set i l[i] = l := by
  apply List.ext_getElem
  · simp
  · intro n h1 h2
    rw [List.getElem_set]
    split
    · simp_all
    · rfl

theorem cons_set_perm (x : α) (l : List α) :
    ∀ j : Nat, (hj : j < l.length) → l[j] :: l.set j x ~ x :: l := by
  induction l with
  | nil => intro j hj; simp at hj
  | cons a t ih =>
    intro j hj
    cases j with
    | zero => simpa using List.Perm.swap x a t
    | succ j =>
      have hj' : j < t.length := by simpa using hj
      have h1 := ih j hj'
      simp only [List.getElem_cons_succ, List.set_cons_succ]
      calc t[j] :: a :: t.set j x
          ~ a :: t[j] :: t.set j x := List.Perm.swap a (t[j]) (t.set j x)
        _ ~ a :: (x :: t) := h1.cons a
        _ ~ x :: a :: t := List.Perm.swap x a t

theorem set_set_perm (l : List α) :
    ∀ i j : Nat, (hi : i < l.length) → (hj : j < l.length) → i < j →
      (l.set i l[j]).set j l[i] ~ l := by
  induction l with
  | nil => intro i j hi _ _; simp at hi
  | cons a t ih =>
    intro i j hi hj hij
    cases j with
    | zero => omega
    | succ j =>
      have hj' : j < t.length := by simpa using hj
      cases i with
      | zero =>
        simp only [List.getElem_cons_succ, List.getElem_cons_zero,
          List.set_cons_zero, List.set_cons_succ]
        exact cons_set_perm a t j hj'
      | succ i =>
        have hi' : i < t.length := by simpa using hi
        simp only [List.getElem_cons_succ, List.set_cons_succ]
        exact (ih i j hi' hj' (by omega)).cons a

/-- `listSwap` is always a permutation of its input. -/
theorem listSwap_perm (v : List α) (i j : Nat) : listSwap v i j ~ v := by
  unfold listSwap
  cases hvi : v[i]? with
  | none => exact List.Perm.refl v
  | some a =>
    cases hvj : v[j]? with
    | none => exact List.Perm.refl v
    | some b =>
      obtain ⟨hi, rfl⟩ := List.getElem?_eq_some_iff.1 hvi
      obtain ⟨hj, rfl⟩ := List.getElem?_eq_some_iff.1 hvj
      simp only []
      rcases Nat.lt_trichotomy i j with hij | hij | hij
      · exact set_set_perm v i j hi hj hij
      · subst hij
        rw [List.set_set, set_self_eq v i hi]
      · rw [List.set_comm _ _ _ (by omega)]
        exact set_set_perm v j i hj hi hij

theorem listSwap_length (v : List α) (i j : Nat) :
    (listSwap v i j).length = v.length :=
  (listSwap_perm v i j).length_eq

/-- The shuffle loop succeeds and permutes whenever the remaining steps stay
inside the slice. -/
theorem shuffleLoop_perm (fuel : Nat) :
    ∀ (r : Rng) (v : List α) (i : Nat), i + fuel < v.length →
      ∃ r' v', shuffleLoop r v i fuel = some (r', v') ∧ v' ~ v := by
  induction fuel with
  | zero => intro r v i _; exact ⟨r, v, rfl, List.Perm.refl v⟩
  | succ fuel ih =>
    intro r v i hlt
    have htop : v.length - i ≠ 0 := by omega
    obtain ⟨r1, j, hbet⟩ : ∃ r1 j, r.between i v.length = some (r1, j) := by
      unfold Rng.between Rng.upto
      simp [htop]
    have hlen : (listSwap v i j).length = v.length := listSwap_length v i j
    obtain ⟨r', v', hloop, hperm⟩ :=
      ih r1 (listSwap v i j) (i + 1) (by omega)
    refine ⟨r', v', ?_, hperm.trans (listSwap_perm v i j)⟩
    unfold shuffleLoop
    rw [hbet]
    exact hloop

/-! Section: Event: the condition-variable latch (`struct Event`) -/

namespace Event

/-- The mutex-protected flag of `Event` starts out `false` (armed, not fired):
`#[derive(Default)]` on `Event` zero-initialises the `Mutex<bool>`. -/
def init : Bool := false

/-- Embeds `Event::notify`: `*g = true; self.cv.notify_one()`.  The new value
of the protected flag is `true` regardless of the old one. -/
def notify (_latch : Bool) : Bool := true

/-- Embeds `Event::wait`: `cv.wait_while(g, |stopped| !*stopped); *g = false`.
The wait can only complete while the flag is `true`; completion clears it.
`none` means the caller blocks until a `notify` sets the flag. -/
def wait (latch : Bool) : Option Bool :=
  if latch then some false else none

end Event

/-! Section: PrioritizeMode and the pivot count (`run_group`, reprioritize arm) -/

/-- Embeds `enum PrioritizeMode`. -/
inductive PrioritizeMode where
  | Random
  | MostlyLo
  | MostlyHi
  | Count (n : Nat)
deriving DecidableEq, Repr

/-- Embeds the `match test.reprioritize.unwrap()` computing `pris` in
`run_group`: `Random => rng.between(1..threads - 1)`, `MostlyHi => 1`,
`MostlyLo => threads - 1`, `Count(n) => n`. -/
def pivotCount (mode : PrioritizeMode) (threads : Nat) (rng : Rng) :
    Option (Rng × Nat) :=
  match mode with
  | .Random => rng.between 1 (threads - 1)
  | .MostlyHi => some (rng, 1)
  | .MostlyLo => some (rng, threads - 1)
  | .Count n => some (rng, n)

/-! Section: Claim theorems: C6, C7, C2, C8 -/

/-- Claim C6: for every slice of length at least 1 and every starting PRNG state,
`Rng::shuffle` completes without panic and leaves the slice a permutation of
its initial contents (every element preserved with its multiplicity). -/
theorem shuffle_perm (r : Rng) (v : List α) (h : 1 ≤ v.length) :
    ∃ r' v', r.shuffle v = some (r', v') ∧ v' ~ v := by
  unfold Rng.shuffle
  have h0 : ¬ v.length = 0 := by omega
  simp only [if_neg h0]
  exact shuffleLoop_perm (v.length - 1) r v 0 (by omega)

theorem shuffle_perm_witness :
    ∃ r' v', (Rng.mk 1).shuffle [10, 20, 30] = some (r', v') ∧ v' ~ [10, 20, 30] :=
  shuffle_perm ⟨1⟩ [10, 20, 30] (by decide)

/-- Claim C7: for `n > 0`, `Rng::upto(n)` is the next generated 64-bit value
reduced modulo `n`, hence lies in `[0, n)`; for `hi > lo`,
`Rng::between(lo..hi)` is `upto(hi - lo) + lo`, hence lies in `[lo, hi)`. -/
theorem upto_between_spec (r : Rng) (n lo hi : Nat) (hn : 0 < n)
    (hlh : lo < hi) :
    r.upto n = some ((r.gen).1, (r.gen).2 % n)
    ∧ (∀ r' v, r.upto n = some (r', v) → v < n)
    ∧ r.between lo hi = some ((r.gen).1, (r.gen).2 % (hi - lo) + lo)
    ∧ (∀ r' v, r.between lo hi = some (r', v) → lo ≤ v ∧ v < hi) := by
  have hn' : n ≠ 0 := by omega
  have hd : hi - lo ≠ 0 := by omega
  refine ⟨?_, ?_, ?_, ?_⟩
  · unfold Rng.upto
    simp [hn']
  · intro r' v hv
    unfold Rng.upto at hv
    simp only [if_neg hn'] at hv
    have hv2 : (r.gen).2 % n = v := by
      exact (Prod.mk.injEq _ _ _ _ ▸ (Option.some.injEq _ _ ▸ hv)).2
    have := Nat.mod_lt (r.gen).2 hn
    omega
  · unfold Rng.between Rng.upto
    simp [hd]
  · intro r' v hv
    unfold Rng.between Rng.upto at hv
    simp only [if_neg hd] at hv
    have hv2 : (r.gen).2 % (hi - lo) + lo = v := by
      exact (Prod.mk.injEq _ _ _ _ ▸ (Option.some.injEq _ _ ▸ hv)).2
    have : (r.gen).2 % (hi - lo) < hi - lo := Nat.mod_lt _ (by omega)
    omega

theorem upto_between_witness :
    (Rng.mk 1).upto 5 = some (((Rng.mk 1).gen).1, ((Rng.mk 1).gen).2 % 5)
    ∧ (∀ r' v, (Rng.mk 1).upto 5 = some (r', v) → v < 5)
    ∧ (Rng.mk 1).between 2 7
        = some (((Rng.mk 1).gen).1, ((Rng.mk 1).gen).2 % (7 - 2) + 2)
    ∧ (∀ r' v, (Rng.mk 1).between 2 7 = some (r', v) → 2 ≤ v ∧ v < 7) :=
  upto_between_spec ⟨1⟩ 5 2 7 (by decide) (by decide)

/-- Claim C2: `Event::notify` sets the latch and a second notify on an already-set
latch leaves the state unchanged; `Event::wait` completes only when the latch
is set, in which case it returns immediately after clearing it, and blocks
when the latch is clear; a completed wait always consumes a set latch and
leaves it cleared (one notify per completed wait), and a notify with no
pending waiter leaves the latch set so the next wait returns at once. -/
theorem event_latch_spec :
    (∀ latch : Bool, Event.notify latch = true)
    ∧ Event.notify (Event.notify false) = Event.notify false
    ∧ Event.wait true = some false
    ∧ Event.wait false = none
    ∧ (∀ latch latch' : Bool,
        Event.wait latch = some latch' → latch = true ∧ latch' = false)
    ∧ Event.wait (Event.notify Event.init) = some false := by
  refine ⟨fun _ => rfl, rfl, rfl, rfl, ?_, rfl⟩
  intro latch latch' h
  cases latch with
  | false => simp [Event.wait] at h
  | true =>
    simp only [Event.wait, if_pos] at h
    exact ⟨rfl, (Option.some.injEq _ _ ▸ h).symm⟩

theorem event_latch_witness : true = true ∧ false = false :=
  event_latch_spec.2.2.2.2.1 true false rfl

/-- Claim C8: the pivot count at a reprioritization event is `1` for `MostlyHi`,
`threads - 1` for `MostlyLo`, `n` for `Count(n)`, and for `Random` a value
drawn from the PRNG lying in `[1, threads - 1)` (so `threads ≥ 3` is needed
for the Random draw not to panic on an empty range). -/
theorem pivotCount_spec (threads n : Nat) (r : Rng) (h3 : 3 ≤ threads) :
    pivotCount .MostlyHi threads r = some (r, 1)
    ∧ pivotCount .MostlyLo threads r = some (r, threads - 1)
    ∧ pivotCount (.Count n) threads r = some (r, n)
    ∧ ∃ r' p, pivotCount .Random threads r = some (r', p)
        ∧ 1 ≤ p ∧ p < threads - 1 := by
  refine ⟨rfl, rfl, rfl, ?_⟩
  have h1 : (1 : Nat) < threads - 1 := by omega
  obtain ⟨_, _, hbet, hrange⟩ :=
    upto_between_spec r (threads - 1 - 1) 1 (threads - 1) (by omega) h1
  refine ⟨(r.gen).1, (r.gen).2 % (threads - 1 - 1) + 1, ?_, ?_⟩
  · exact hbet
  · exact hrange _ _ hbet

theorem pivotCount_witness :
    pivotCount .MostlyHi 4 ⟨1⟩ = some (⟨1⟩, 1)
    ∧ pivotCount .MostlyLo 4 ⟨1⟩ = some (⟨1⟩, 4 - 1)
    ∧ pivotCount (.Count 2) 4 ⟨1⟩ = some (⟨1⟩, 2)
    ∧ ∃ r' p, pivotCount .Random 4 ⟨1⟩ = some (r', p) ∧ 1 ≤ p ∧ p < 4 - 1 :=
  pivotCount_spec 4 2 ⟨1⟩ (by decide)

/-! Section: Worker loop (`run_test_thread`) and group driver (`run_group`) -/

/-- Embeds the fields of `TestCfg` that `run_group` consumes (the hooks are
function pointers whose invocations the driver model counts instead). -/
structure TestCfg where
  threads : Nat
  iterations : Nat
  subIterations : Nat
  reprioritize : Option PrioritizeMode
deriving DecidableEq, Repr

/-- Observable actions of one worker thread, in program order. -/
inductive WorkerAction where
  | waitBefore
  | testCall (subIter : Nat)
  | notifyAfter
deriving DecidableEq, Repr

/-- Embeds `run_test_thread`: one initial `before_event.wait()`, then per
iteration the inner loop `for sub_iter in 0..sub_iterations.max(1)` invoking
the user test, followed by `after_event.notify()` and the next
`before_event.wait()`. -/
def runTestThread (iters subIterations : Nat) : List WorkerAction :=
  WorkerAction.waitBefore ::
    (List.range iters).flatMap (fun _ =>
      ((List.range (max subIterations 1)).map WorkerAction.testCall)
        ++ [WorkerAction.notifyAfter, WorkerAction.waitBefore])

/-- Recognises a user-test invocation in a worker trace. -/
def isTestCall : WorkerAction → Bool
  | .testCall _ => true
  | _ => false

/-- Recognises a `before_event.wait()` in a worker trace. -/
def isWaitBefore : WorkerAction → Bool
  | .waitBefore => true
  | _ => false

/-- Number of user-test invocations in a worker trace. -/
def countTestCalls (tr : List WorkerAction) : Nat := tr.countP isTestCall

/-- Number of `before_event.wait()` calls in a worker trace. -/
def countBeforeWaits (tr : List WorkerAction) : Nat := tr.countP isWaitBefore

/-- Total user-test invocations of one group: `run_group` spawns
`cfg.threads` workers, each running `run_test_thread` with the group's
iteration and sub-iteration counts. -/
def groupTestCalls (cfg : TestCfg) : Nat :=
  ((List.range cfg.threads).map
    (fun _ => countTestCalls (runTestThread cfg.iterations cfg.subIterations))).sum

/-- Driver-side state of `run_group`, with invocation counters for the hooks
and a log of which worker each `before_event.notify()` went to. -/
structure GroupSt where
  rng : Rng
  order : List Nat
  pris : List Bool
  setupCalls : Nat
  beforeEachCalls : Nat
  afterEachCalls : Nat
  beforeNotifyLog : List Nat
  afterWaitLog : List Nat
deriving DecidableEq, Repr

/-- Embeds the reprioritization guard of `run_group`:
`test.reprioritize.is_some() && rep != 0 && (rep % 200) == 0` (on a non-miri
build). -/
def repriFires (repri : Option PrioritizeMode) (rep : Nat) : Bool :=
  repri.isSome && (rep != 0) && (rep % 200 == 0)

/-- Embeds the bit-assignment loop of the reprioritization arm:
`for i in (0..threads).map(|i| order[i]) { pri_states[i].store(i < pris, Relaxed) }`.
The loop variable `i` is the *element* `order[k]`, so worker `order[k]`
receives the bit `order[k] < p`. -/
def applyRepri (threads : Nat) (order : List Nat) (pris : List Bool)
    (p : Nat) : List Bool :=
  (List.range threads).foldl
    (fun acc k => acc.set (order.getD k 0) (decide (order.getD k 0 < p))) pris

/-- Embeds the whole reprioritization arm of the `run_group` loop body. -/
def repriStep (cfg : TestCfg) (rep : Nat) (st : GroupSt) : Option GroupSt :=
  if repriFires cfg.reprioritize rep then
    match cfg.reprioritize with
    | none => some st
    | some mode =>
      match pivotCount mode cfg.threads st.rng with
      | none => none
      | some (rng', p) =>
        some { st with rng := rng'
                       pris := applyRepri cfg.threads st.order st.pris p }
  else some st

/-- Embeds one `rep` of the `for rep in 0..iterations` loop of `run_group`:
reprioritize, shuffle `order`, re-run `setup` when `rep == 0`, `before_each`,
notify every before-event in `order`, wait every after-event in `order`,
`after_each`.  `none` is a driver panic (e.g. the shuffle of an empty
`order`). -/
def driverIteration (cfg : TestCfg) (rep : Nat) (st : GroupSt) :
    Option GroupSt :=
  match repriStep cfg rep st with
  | none => none
  | some st1 =>
    match st1.rng.shuffle st1.order with
    | none => none
    | some (rng2, order2) =>
      let st2 := { st1 with rng := rng2, order := order2 }
      let st3 :=
        if rep = 0 then { st2 with setupCalls := st2.setupCalls + 1 } else st2
      let st4 := { st3 with beforeEachCalls := st3.beforeEachCalls + 1 }
      let st5 := { st4 with beforeNotifyLog := st4.beforeNotifyLog ++ st4.order }
      let st6 := { st5 with afterWaitLog := st5.afterWaitLog ++ st5.order }
      some { st6 with afterEachCalls := st6.afterEachCalls + 1 }

/-- Runs `n` remaining iterations of the `run_group` loop starting at
iteration index `rep`. -/
def driverLoop (cfg : TestCfg) : Nat → Nat → GroupSt → Option GroupSt
  | _, 0, st => some st
  | rep, n + 1, st =>
    match driverIteration cfg rep st with
    | none => none
    | some st' => driverLoop cfg (rep + 1) n st'

/-- Driver state of `run_group` before the iteration loop: `order` is
`(0..threads).collect()`, every priority bit starts `true`, and `setup` has
run once to build the initial shared state. -/
def initialSt (cfg : TestCfg) (rng0 : Rng) : GroupSt :=
  { rng := rng0
    order := List.range cfg.threads
    pris := List.replicate cfg.threads true
    setupCalls := 1
    beforeEachCalls := 0
    afterEachCalls := 0
    beforeNotifyLog := []
    afterWaitLog := [] }

/-- Embeds the join loop of `run_group`: workers are joined in spawn order
(`thread_index` ascending) and each panicking worker's payload is pushed onto
`failed` together with its index. -/
def joinWorkersFrom : Nat → List (Option Nat) → List (Nat × Nat)
  | _, [] => []
  | i, none :: rest => joinWorkersFrom (i + 1) rest
  | i, some e :: rest => (i, e) :: joinWorkersFrom (i + 1) rest

/-- The `failed` vector after the join loop of `run_group`. -/
def joinWorkers (results : List (Option Nat)) : List (Nat × Nat) :=
  joinWorkersFrom 0 results

/-- Outcome of `run_group` when the driver itself does not panic:
`reraised` is the payload re-raised by `resume_unwind(failed.pop())`, if
any worker panicked. -/
structure RunResult where
  final : GroupSt
  workersJoined : Nat
  teardownCalls : Nat
  reraised : Option Nat
deriving DecidableEq, Repr

/-- Embeds `run_group` end to end: the iteration loop, the final round of
before-event notifications (`last kick`), the join loop, and either the
re-raise of a captured worker panic or the single `teardown` call.
`workerResults` holds each worker's join result in `thread_index` order
(`none` = returned normally, `some e` = panicked with payload `e`). -/
def runGroupModel (cfg : TestCfg) (rng0 : Rng)
    (workerResults : List (Option Nat)) : Option RunResult :=
  match driverLoop cfg 0 cfg.iterations (initialSt cfg rng0) with
  | none => none
  | some st =>
    let st' := { st with beforeNotifyLog := st.beforeNotifyLog ++ st.order }
    let failed := joinWorkers workerResults
    some { final := st'
           workersJoined := workerResults.length
           teardownCalls := if failed.isEmpty then 1 else 0
           reraised := (failed.getLast?).map (fun f => f.2) }

/-- A run of one group completes without any panic: the driver loop finished
and no worker panic was re-raised. -/
def runCompletes (cfg : TestCfg) (rng0 : Rng)
    (ws : List (Option Nat)) : Bool :=
  match runGroupModel cfg rng0 ws with
  | none => false
  | some res => res.reraised.isNone

/-! Section: Counting lemmas for worker traces -/

theorem countP_flatMap_const (l : List α) (f : α → List β) (p : β → Bool)
    (c : Nat) (h : ∀ a, (f a).countP p = c) :
    (l.flatMap f).countP p = l.length * c := by
  induction l with
  | nil => simp
  | cons a t ih =>
    simp only [List.flatMap_cons, List.countP_append, ih, h,
      List.length_cons, Nat.succ_mul]
    omega

theorem countTestCalls_runTestThread (iters subs : Nat) :
    countTestCalls (runTestThread iters subs) = iters * max subs 1 := by
  unfold countTestCalls runTestThread
  rw [List.countP_cons,
    countP_flatMap_const _ _ _ (max subs 1) (fun _ => ?_), List.length_range]
  · simp [isTestCall]
  · rw [List.countP_append, List.countP_map]
    simp [isTestCall, Function.comp_def]

theorem countBeforeWaits_runTestThread (iters subs : Nat) :
    countBeforeWaits (runTestThread iters subs) = iters + 1 := by
  unfold countBeforeWaits runTestThread
  rw [List.countP_cons, countP_flatMap_const _ _ _ 1 (fun _ => ?_),
    List.length_range]
  · simp [isWaitBefore]
  · rw [List.countP_append, List.countP_map]
    simp [isWaitBefore, Function.comp_def]

theorem groupTestCalls_eq (cfg : TestCfg) :
    groupTestCalls cfg
      = cfg.threads * (cfg.iterations * max cfg.subIterations 1) := by
  unfold groupTestCalls
  rw [List.map_const', List.length_range, List.sum_const_nat,
    countTestCalls_runTestThread]

/-! Section: Claim theorems: C1 and C9 -/

/-- Claim C1: a run of one group that completes without any panic invokes the user
test function exactly `threads * iterations * max(sub_iterations, 1)` times:
each of the `threads` workers runs the inner loop `max(sub_iterations, 1)`
times per iteration, for exactly `iterations` iterations. -/
theorem run_invokes_test_exactly (cfg : TestCfg) (rng : Rng)
    (ws : List (Option Nat)) (h : runCompletes cfg rng ws = true) :
    groupTestCalls cfg
        = cfg.threads * (cfg.iterations * max cfg.subIterations 1)
    ∧ countTestCalls (runTestThread cfg.iterations cfg.subIterations)
        = cfg.iterations * max cfg.subIterations 1 :=
  ⟨groupTestCalls_eq cfg,
   countTestCalls_runTestThread cfg.iterations cfg.subIterations⟩

theorem run_invokes_test_exactly_witness :
    groupTestCalls ⟨2, 3, 0, none⟩ = 2 * (3 * max 0 1)
    ∧ countTestCalls (runTestThread 3 0) = 3 * max 0 1 :=
  run_invokes_test_exactly ⟨2, 3, 0, none⟩ ⟨1⟩ [none, none] (by decide)

theorem joinWorkersFrom_all_none :
    ∀ (ws : List (Option Nat)) (i : Nat), (∀ x ∈ ws, x = none) →
      joinWorkersFrom i ws = [] := by
  intro ws
  induction ws with
  | nil => intro i _; rfl
  | cons x rest ih =>
    intro i h
    cases x with
    | none => exact ih (i + 1) (fun y hy => h y (List.mem_cons_of_mem _ hy))
    | some e => exact absurd (h (some e) (List.mem_cons_self _ _)) (by simp)

theorem joinWorkers_replicate_none (n : Nat) :
    joinWorkers (List.replicate n none) = [] :=
  joinWorkersFrom_all_none _ 0 (fun _ hx => List.eq_of_mem_replicate hx)

/-- Claim C9: with `iterations = 0` (not under the slow-checker build, which would
raise the count to 100) a group run performs setup and teardown only: the
user test, `before_each` and `after_each` run zero times, `setup` ran once
before spawning, the final round of notifications releases each of the
`threads` workers exactly once (each worker's trace waits exactly once), and
all workers are joined. -/
theorem run_group_iterations_zero (cfg : TestCfg) (rng : Rng)
    (h0 : cfg.iterations = 0) :
    ∃ res, runGroupModel cfg rng (List.replicate cfg.threads none) = some res
      ∧ res.final.setupCalls = 1
      ∧ res.final.beforeEachCalls = 0
      ∧ res.final.afterEachCalls = 0
      ∧ groupTestCalls cfg = 0
      ∧ res.teardownCalls = 1
      ∧ res.reraised = none
      ∧ res.workersJoined = cfg.threads
      ∧ res.final.beforeNotifyLog = List.range cfg.threads
      ∧ (∀ w, w < cfg.threads → res.final.beforeNotifyLog.count w = 1)
      ∧ countBeforeWaits (runTestThread cfg.iterations cfg.subIterations)
          = 1 := by
  unfold runGroupModel
  rw [h0]
  have hdl : driverLoop cfg 0 0 (initialSt cfg rng)
      = some (initialSt cfg rng) := rfl
  rw [hdl]
  simp only [joinWorkers_replicate_none]
  refine ⟨_, rfl, rfl, rfl, rfl, ?_, rfl, rfl, ?_, ?_, ?_, ?_⟩
  · simp [groupTestCalls_eq, h0]
  · simp
  · simp [initialSt]
  · intro w hw
    simp only [initialSt, List.nil_append]
    exact List.count_eq_one_of_mem (List.nodup_range _) (List.mem_range.2 hw)
  · simp [countBeforeWaits_runTestThread]

theorem run_group_iterations_zero_witness :
    ∃ res, runGroupModel ⟨3, 0, 1, none⟩ ⟨1⟩ (List.replicate 3 none) = some res
      ∧ res.final.setupCalls = 1
      ∧ res.final.beforeEachCalls = 0
      ∧ res.final.afterEachCalls = 0
      ∧ groupTestCalls ⟨3, 0, 1, none⟩ = 0
      ∧ res.teardownCalls = 1
      ∧ res.reraised = none
      ∧ res.workersJoined = 3
      ∧ res.final.beforeNotifyLog = List.range 3
      ∧ (∀ w, w < 3 → res.final.beforeNotifyLog.count w = 1)
      ∧ countBeforeWaits (runTestThread 0 1) = 1 :=
  run_group_iterations_zero ⟨3, 0, 1, none⟩ ⟨1⟩ rfl

/-! Section: Join-loop accounting (for C5) -/

theorem joinWorkersFrom_eq_nil_iff (ws : List (Option Nat)) :
    ∀ i, (joinWorkersFrom i ws = [] ↔ ∀ x ∈ ws, x = none) := by
  induction ws with
  | nil => intro i; simp [joinWorkersFrom]
  | cons x rest ih =>
    intro i
    cases x with
    | none =>
      rw [joinWorkersFrom, ih (i + 1)]
      simp
    | some e =>
      rw [joinWorkersFrom]
      simp

theorem joinWorkersFrom_mem (ws : List (Option Nat)) :
    ∀ i pr, pr ∈ joinWorkersFrom i ws → some pr.2 ∈ ws := by
  induction ws with
  | nil => intro i pr h; rw [joinWorkersFrom] at h; simp at h
  | cons x rest ih =>
    intro i pr h
    cases x with
    | none =>
      rw [joinWorkersFrom] at h
      exact List.mem_cons_of_mem _ (ih (i + 1) pr h)
    | some e =>
      rw [joinWorkersFrom] at h
      rcases List.mem_cons.1 h with h1 | h1
      · rw [h1]; exact List.mem_cons_self _ _
      · exact List.mem_cons_of_mem _ (ih (i + 1) pr h1)

theorem joinWorkers_eq_nil_iff (ws : List (Option Nat)) :
    joinWorkers ws = [] ↔ ws.any Option.isSome = false := by
  rw [joinWorkers, joinWorkersFrom_eq_nil_iff, List.any_eq_false]
  constructor
  · intro h x hx
    rw [h x hx]
    simp
  · intro h x hx
    have := h x hx
    cases x with
    | none => rfl
    | some e => simp at this

/-- Claim C5: after the driver loop finishes, `teardown` runs exactly when no
worker panicked; all workers are joined either way, and when some worker
panicked, one of the captured panic payloads is re-raised (so `teardown`
is skipped). -/
theorem teardown_iff_no_worker_panic (cfg : TestCfg) (rng : Rng)
    (ws : List (Option Nat))
    (h : (runGroupModel cfg rng ws).isSome = true) :
    (runGroupModel cfg rng ws).map (fun res => res.teardownCalls)
        = some (if ws.any Option.isSome then 0 else 1)
    ∧ (runGroupModel cfg rng ws).map (fun res => res.workersJoined)
        = some ws.length
    ∧ (runGroupModel cfg rng ws).map (fun res => res.reraised.isSome)
        = some (ws.any Option.isSome)
    ∧ (ws.any Option.isSome = true →
        ∃ p, (runGroupModel cfg rng ws).map (fun res => res.reraised)
            = some (some p) ∧ some p ∈ ws) := by
  cases hdl : driverLoop cfg 0 cfg.iterations (initialSt cfg rng) with
  | none =>
    unfold runGroupModel at h
    rw [hdl] at h
    simp at h
  | some st =>
    unfold runGroupModel
    rw [hdl]
    simp only [Option.map_some]
    cases hany : ws.any Option.isSome with
    | false =>
      have hnil : joinWorkers ws = [] := (joinWorkers_eq_nil_iff ws).2 hany
      refine ⟨?_, rfl, ?_, ?_⟩
      · rw [hnil]; rfl
      · rw [hnil]; rfl
      · intro hcontra; exact absurd hcontra (by simp)
    | true =>
      have hne : joinWorkers ws ≠ [] := by
        intro hc
        rw [(joinWorkers_eq_nil_iff ws).1 hc] at hany
        exact Bool.false_ne_true hany
      have hsome : (joinWorkers ws).getLast?.isSome :=
        List.getLast?_isSome.2 hne
      obtain ⟨pr, hpr⟩ := Option.isSome_iff_exists.1 hsome
      have hempty : (joinWorkers ws).isEmpty = false := by
        cases hjw : joinWorkers ws with
        | nil => exact absurd hjw hne
        | cons a t => rfl
      refine ⟨?_, rfl, ?_, ?_⟩
      · rw [hempty]; rfl
      · rw [hempty, hpr]; rfl
      · intro _
        refine ⟨pr.2, ?_, ?_⟩
        · rw [hempty, hpr]; rfl
        · exact joinWorkersFrom_mem ws 0 pr
            (List.mem_of_getLast?_eq_some hpr)

theorem teardown_iff_no_worker_panic_witness :
    (runGroupModel ⟨1, 0, 1, none⟩ ⟨1⟩ [some 7]).map
        (fun res => res.teardownCalls)
      = some (if [some 7].any Option.isSome then 0 else 1)
    ∧ (runGroupModel ⟨1, 0, 1, none⟩ ⟨1⟩ [some 7]).map
        (fun res => res.workersJoined) = some [some 7].length
    ∧ (runGroupModel ⟨1, 0, 1, none⟩ ⟨1⟩ [some 7]).map
        (fun res => res.reraised.isSome) = some ([some 7].any Option.isSome)
    ∧ ([some 7].any Option.isSome = true →
        ∃ p, (runGroupModel ⟨1, 0, 1, none⟩ ⟨1⟩ [some 7]).map
            (fun res => res.reraised) = some (some p) ∧ some p ∈ [some 7]) :=
  teardown_iff_no_worker_panic ⟨1, 0, 1, none⟩ ⟨1⟩ [some 7] (by decide)

/-! Section: Claim theorem: C10 -/

theorem repriStep_rep_zero (cfg : TestCfg) (st : GroupSt) :
    repriStep cfg 0 st = some st := by
  unfold repriStep repriFires
  simp

/-- Claim C10: `Rng::shuffle` of an empty slice panics (the loop bound
`v.len() - 1` underflows), and consequently `run_group` with `threads = 0`
and at least one iteration panics at the first iteration's shuffle of the
(empty) `order` permutation, never reaching a result. -/
theorem shuffle_empty_and_zero_threads_panics (cfg : TestCfg) (rng : Rng)
    (ws : List (Option Nat)) (hth : cfg.threads = 0)
    (hit : 1 ≤ cfg.iterations) :
    (∀ r : Rng, r.shuffle ([] : List Nat) = none)
    ∧ runGroupModel cfg rng ws = none := by
  refine ⟨fun r => rfl, ?_⟩
  obtain ⟨n, hn⟩ : ∃ n, cfg.iterations = n + 1 :=
    ⟨cfg.iterations - 1, by omega⟩
  have horder : (initialSt cfg rng).order = [] := by
    simp [initialSt, hth]
  have hiter : driverIteration cfg 0 (initialSt cfg rng) = none := by
    have hshuffle : (initialSt cfg rng).rng.shuffle ((initialSt cfg rng).order)
        = (none : Option (Rng × List Nat)) := by
      rw [horder]
      rfl
    unfold driverIteration
    rw [repriStep_rep_zero]
    simp only [hshuffle]
  unfold runGroupModel
  rw [hn]
  unfold driverLoop
  rw [hiter]

theorem shuffle_empty_and_zero_threads_panics_witness :
    (∀ r : Rng, r.shuffle ([] : List Nat) = none)
    ∧ runGroupModel ⟨0, 1, 1, none⟩ ⟨1⟩ [] = none :=
  shuffle_empty_and_zero_threads_panics ⟨0, 1, 1, none⟩ ⟨1⟩ [] rfl
    (by decide)

/-! Section: Reprioritization bit assignment (for C3) -/

/-- One store of the reprioritization loop: worker `w` receives `w < p`. -/
def setBit (p : Nat) (acc : List Bool) (w : Nat) : List Bool :=
  acc.set w (decide (w < p))

theorem map_getD_range (l : List Nat) :
    (List.range l.length).map (fun k => l.getD k 0) = l := by
  apply List.ext_getElem
  · simp
  · intro n h1 h2
    simp only [List.getElem_map, List.getElem_range]
    rw [List.getD_eq_getElem?_getD, List.getElem?_eq_getElem h2]
    rfl

theorem applyRepri_eq_foldl (order : List Nat) (pris : List Bool) (p : Nat) :
    applyRepri order.length order pris p = order.foldl (setBit p) pris := by
  conv_rhs => rw [← map_getD_range order]
  rw [List.foldl_map]
  rfl

theorem foldl_setBit_not_mem (p : Nat) :
    ∀ (os : List Nat) (pris : List Bool) (w : Nat), w ∉ os →
      (os.foldl (setBit p) pris).getD w false = pris.getD w false := by
  intro os
  induction os with
  | nil => intro pris w _; rfl
  | cons o rest ih =>
    intro pris w hw
    rw [List.foldl_cons, ih _ _ (fun hc => hw (List.mem_cons_of_mem _ hc))]
    have hne : o ≠ w := fun hc => hw (hc ▸ List.mem_cons_self _ _)
    simp [setBit, List.getD_eq_getElem?_getD, List.getElem?_set_ne hne]

theorem foldl_setBit_mem (p : Nat) :
    ∀ (os : List Nat) (pris : List Bool) (w : Nat), os.Nodup → w ∈ os →
      w < pris.length →
      (os.foldl (setBit p) pris).getD w false = decide (w < p) := by
  intro os
  induction os with
  | nil => intro pris w _ hmem _; simp at hmem
  | cons o rest ih =>
    intro pris w hnd hmem hlt
    rw [List.foldl_cons]
    rcases List.mem_cons.1 hmem with rfl | hmem'
    · have hnotin : w ∉ rest := (List.nodup_cons.1 hnd).1
      rw [foldl_setBit_not_mem p rest _ w hnotin]
      simp [setBit, List.getD_eq_getElem?_getD, List.getElem?_set_self hlt]
    · exact ih _ w (List.nodup_cons.1 hnd).2 hmem' (by simp [setBit, hlt])

theorem applyRepri_bit (threads p : Nat) (order : List Nat)
    (pris : List Bool) (horder : order ~ List.range threads)
    (hpris : pris.length = threads) :
    ∀ w, w < threads →
      (applyRepri threads order pris p).getD w false = decide (w < p) := by
  intro w hw
  have hlen : order.length = threads := by
    rw [horder.length_eq, List.length_range]
  have hnd : order.Nodup := (horder.nodup_iff).2 (List.nodup_range threads)
  have hmem : w ∈ order := (horder.mem_iff).2 (List.mem_range.2 hw)
  rw [← hlen, applyRepri_eq_foldl]
  exact foldl_setBit_mem p order pris w hnd hmem (by omega)

/-! Section: Claim C3: counterexample and amended theorem -/

/-- Claim C3 counterexample: at a reprioritization event with `threads = 2`,
shuffled order `[1, 0]`, all bits initially `true` and pivot `p = 1`, the
claim predicts that worker `order[0] = 1` receives the bit `(0 < 1) = true`;
the code's loop `for i in (0..threads).map(|i| order[i])` stores `i < p` for
the *element* `i = order[k]`, so worker `1` actually receives
`(1 < 1) = false`. -/
theorem repri_position_bit_counterexample :
    ¬ ((applyRepri 2 [1, 0] [true, true] 1).getD ([1, 0].getD 0 0) false
        = decide ((0 : Nat) < 1)) := by
  decide

/-- Claim C3 (amended): when reprioritization is configured, the priority bits are
reassigned iff the iteration index is a positive multiple of 200 (never at
`rep = 0`, first at `rep = 200`); at such an event the bit of worker
`order[i]` is set to `(order[i] < p)` — equivalently, every worker `w`
receives the bit `(w < p)` — rather than `(i < p)` as the claim stated. -/
theorem repri_fires_and_bits (mode : Option PrioritizeMode)
    (rep threads p : Nat) (order : List Nat) (pris : List Bool)
    (horder : order ~ List.range threads) (hpris : pris.length = threads) :
    (repriFires mode rep = true
        ↔ mode.isSome = true ∧ ∃ k, 1 ≤ k ∧ rep = 200 * k)
    ∧ repriFires mode 0 = false
    ∧ (mode.isSome = true → repriFires mode 200 = true)
    ∧ (∀ r, 1 ≤ r → r < 200 → repriFires mode r = false)
    ∧ (∀ i, i < threads →
        (applyRepri threads order pris p).getD (order.getD i 0) false
          = decide (order.getD i 0 < p))
    ∧ (∀ w, w < threads →
        (applyRepri threads order pris p).getD w false = decide (w < p)) := by
  have hlen : order.length = threads := by
    rw [horder.length_eq, List.length_range]
  refine ⟨?_, ?_, ?_, ?_, ?_, applyRepri_bit threads p order pris horder hpris⟩
  · unfold repriFires
    simp only [Bool.and_eq_true, bne_iff_ne, ne_eq, beq_iff_eq]
    constructor
    · rintro ⟨⟨hs, hne⟩, hmod⟩
      refine ⟨hs, rep / 200, ?_, ?_⟩
      · have := Nat.div_mul_cancel (Nat.dvd_iff_mod_eq_zero.2 hmod)
        omega
      · have := Nat.div_mul_cancel (Nat.dvd_iff_mod_eq_zero.2 hmod)
        omega
    · rintro ⟨hs, k, hk1, hk2⟩
      refine ⟨⟨hs, by omega⟩, ?_⟩
      rw [hk2]
      exact Nat.mul_mod_right 200 k
  · simp [repriFires]
  · intro hs
    simp [repriFires, hs]
  · intro r hr1 hr2
    have hmod : r % 200 = r := Nat.mod_eq_of_lt hr2
    simp [repriFires, hmod]
  · intro i hi
    have hiord : i < order.length := by omega
    have hgd : order.getD i 0 = order[i] := by
      rw [List.getD_eq_getElem?_getD, List.getElem?_eq_getElem hiord]
      rfl
    have hmem : order[i] ∈ order := List.getElem_mem hiord
    have hwlt : order.getD i 0 < threads := by
      rw [hgd]
      exact List.mem_range.1 ((horder.mem_iff).1 hmem)
    exact applyRepri_bit threads p order pris horder hpris _ hwlt

theorem repri_fires_and_bits_witness :
    ((repriFires (some .MostlyHi) 200 = true
        ↔ (some PrioritizeMode.MostlyHi).isSome = true
          ∧ ∃ k, 1 ≤ k ∧ 200 = 200 * k)
    ∧ repriFires (some .MostlyHi) 0 = false
    ∧ ((some PrioritizeMode.MostlyHi).isSome = true
        → repriFires (some .MostlyHi) 200 = true)
    ∧ (∀ r, 1 ≤ r → r < 200 → repriFires (some .MostlyHi) r = false)
    ∧ (∀ i, i < 2 →
        (applyRepri 2 [1, 0] [true, true] 1).getD ([1, 0].getD i 0) false
          = decide ([1, 0].getD i 0 < 1))
    ∧ (∀ w, w < 2 →
        (applyRepri 2 [1, 0] [true, true] 1).getD w false
          = decide (w < 1))) :=
  repri_fires_and_bits (some .MostlyHi) 200 2 1 [1, 0] [true, true]
    (by decide) (by decide)

/-! Section: TestCfg::default and the environment knobs (for C4) -/

/-- Behaviour of a configured hook closure: each default is either a no-op
or an immediate panic with a fixed message. -/
inductive HookBehavior where
  | noop
  | panics (msg : String)
deriving DecidableEq, Repr

/-- Embeds Rust `str::parse::<usize>` on the character list of the input:
an optional leading `+`, then one or more ASCII digits, and the value must
fit in 64 bits. -/
def parseUsizeChars (cs : List Char) : Option Nat :=
  let t := match cs with
    | '+' :: rest => rest
    | _ => cs
  if t = [] then none
  else if t.all (fun c => c.isDigit) then
    let n := t.foldl (fun acc c => acc * 10 + (c.toNat - 48)) 0
    if n < u64Mod then some n else none
  else none

/-- Embeds `str::parse::<usize>`. -/
def parseUsize (s : String) : Option Nat := parseUsizeChars s.data

/-- ASCII lower-casing of one character, as in `eq_ignore_ascii_case`. -/
def asciiLower (c : Char) : Char :=
  if 'A' ≤ c ∧ c ≤ 'Z' then Char.ofNat (c.toNat + 32) else c

/-- Embeds `str::eq_ignore_ascii_case`. -/
def eqIgnoreAsciiCase (a b : String) : Bool :=
  a.data.map asciiLower == b.data.map asciiLower

/-- The default `setup` closure: `|| panic!("please provide setup")`. -/
def defaultSetup : HookBehavior := .panics ("please provide setup")

/-- The default `teardown` closure: `|_| {}`. -/
def defaultTeardown : HookBehavior := .noop

/-- The default `before_each` closure: `|_| {}`. -/
def defaultBeforeEach : HookBehavior := .noop

/-- The default `after_each` closure: `|_| {}`. -/
def defaultAfterEach : HookBehavior := .noop

/-- The default `test` closure: `|_, _| {}`. -/
def defaultTest : HookBehavior := .noop

/-- Embeds the `iterations` default from `option_env!("COBB_ITERATIONS")`:
the value, plus a flag recording that the `couldn't parse COBB_ITERATIONS`
diagnostic was printed before falling back to 1000. -/
def defaultIterations (env : Option String) : Nat × Bool :=
  match env with
  | none => (1000, false)
  | some s =>
    if s = "0" ∨ s = "" then (1000, false)
    else match parseUsize s with
      | some n => (n, false)
      | none => (1000, true)

/-- Embeds the `groups` default from `option_env!("COBB_GROUPS")`, falling
back to 1 with a diagnostic when unparseable. -/
def defaultGroups (env : Option String) : Nat × Bool :=
  match env with
  | none => (1, false)
  | some s =>
    if s = "0" ∨ s = "" then (1, false)
    else match parseUsize s with
      | some n => (n, false)
      | none => (1, true)

/-- Embeds the `reprioritize` default from `option_env!("COBB_REPRIORITIZE")`.
The outer `none` is the `panic!("unknown mode ...")` arm for a value that is
neither empty, `0`, a known keyword, nor a parseable count. -/
def defaultReprioritize (env : Option String) :
    Option (Option PrioritizeMode) :=
  match env with
  | none => some none
  | some s =>
    if s = "" ∨ s = "0" then some none
    else if eqIgnoreAsciiCase s ("random") then some (some .Random)
    else if eqIgnoreAsciiCase s ("mostly-high") then some (some .MostlyHi)
    else if eqIgnoreAsciiCase s ("mostly-low") then some (some .MostlyLo)
    else match parseUsize s with
      | some n => some (some (.Count n))
      | none => none

/-- The record built by `TestCfg::default()`, with the hook closures
represented by their behaviour and the diagnostics flags kept. -/
structure DefaultCfg where
  threads : Nat
  subIterations : Nat
  iterations : Nat
  iterationsDiag : Bool
  groups : Nat
  groupsDiag : Bool
  setup : HookBehavior
  teardown : HookBehavior
  beforeEach : HookBehavior
  afterEach : HookBehavior
  test : HookBehavior
  name : Option String
  reprioritize : Option PrioritizeMode
deriving DecidableEq, Repr

/-- Embeds `TestCfg::default()` as a function of the three compile-time
environment variables; `none` is the construction-time panic on a malformed
`COBB_REPRIORITIZE`. -/
def mkDefaultCfg (itersEnv groupsEnv repriEnv : Option String) :
    Option DefaultCfg :=
  match defaultReprioritize repriEnv with
  | none => none
  | some rp =>
    let it := defaultIterations itersEnv
    let gr := defaultGroups groupsEnv
    some { threads := 4
           subIterations := 1
           iterations := it.1
           iterationsDiag := it.2
           groups := gr.1
           groupsDiag := gr.2
           setup := defaultSetup
           teardown := defaultTeardown
           beforeEach := defaultBeforeEach
           afterEach := defaultAfterEach
           test := defaultTest
           name := none
           reprioritize := rp }

/-! Section: Claim C4: counterexample and amended theorem -/

/-- Claim C4 counterexample: with `COBB_ITERATIONS="banana"` (unparseable) and the
other variables unset, `TestCfg::default()` does not abort: construction
succeeds and `iterations` silently falls back to 1000 (only an `eprintln!`
diagnostic is emitted), contradicting the claim that a malformed environment
variable aborts immediately; and the default `test` hook is a no-op rather
than a panic, so a config whose `test` was not supplied runs a no-op test
instead of aborting. -/
theorem default_cfg_counterexample :
    (mkDefaultCfg (some ("banana")) none none).isSome = true
    ∧ (mkDefaultCfg (some ("banana")) none none).map (fun c => c.iterations)
        = some 1000
    ∧ (mkDefaultCfg (some ("banana")) none none).map (fun c => c.iterationsDiag)
        = some true
    ∧ defaultTest = HookBehavior.noop := by
  refine ⟨?_, ?_, ?_, rfl⟩ <;> rfl

/-- Claim C4 (amended): a malformed `COBB_REPRIORITIZE` is a construction-time
panic, and a missing `setup` panics (with "please provide setup") as soon as
the run first invokes it; but an unparseable `COBB_ITERATIONS` or
`COBB_GROUPS` does not abort: it falls back to its default (1000 and 1) with
a printed diagnostic, and a missing `test` is a no-op, not an abort. -/
theorem default_cfg_spec (s : String) (hs : parseUsize s = none)
    (hs0 : s ≠ "") (hs00 : s ≠ "0")
    (hsr : eqIgnoreAsciiCase s ("random") = false)
    (hsh : eqIgnoreAsciiCase s ("mostly-high") = false)
    (hsl : eqIgnoreAsciiCase s ("mostly-low") = false) :
    mkDefaultCfg none none (some s) = none
    ∧ defaultSetup = HookBehavior.panics ("please provide setup")
    ∧ defaultTest = HookBehavior.noop
    ∧ defaultIterations (some s) = (1000, true)
    ∧ defaultGroups (some s) = (1, true)
    ∧ (mkDefaultCfg (some s) (some s) none).isSome = true := by
  have hor : ¬ (s = "0" ∨ s = "") := by
    intro hc
    rcases hc with hc | hc
    · exact hs00 hc
    · exact hs0 hc
  have hor2 : ¬ (s = "" ∨ s = "0") := by
    intro hc
    rcases hc with hc | hc
    · exact hs0 hc
    · exact hs00 hc
  refine ⟨?_, rfl, rfl, ?_, ?_, ?_⟩
  · unfold mkDefaultCfg defaultReprioritize
    simp [hor2, hsr, hsh, hsl, hs]
  · unfold defaultIterations
    simp [hor, hs]
  · unfold defaultGroups
    simp [hor, hs]
  · unfold mkDefaultCfg defaultReprioritize
    rfl

theorem default_cfg_spec_witness :
    mkDefaultCfg none none (some ("banana")) = none
    ∧ defaultSetup = HookBehavior.panics ("please provide setup")
    ∧ defaultTest = HookBehavior.noop
    ∧ defaultIterations (some ("banana")) = (1000, true)
    ∧ defaultGroups (some ("banana")) = (1, true)
    ∧ (mkDefaultCfg (some ("banana")) (some ("banana")) none).isSome = true :=
  default_cfg_spec ("banana") rfl (by decide) (by decide) rfl rfl rfl

end Cobb
